import Mathlib

/-!
Verification of `registry/handlers/app.go` from the distribution registry.

The definitions below are a shallow embedding of the functions of that file
that the verified properties concern: access-record assembly
(`appendAccessRecords`, `appendCatalogAccessRecord`), the authorization gate
(`App.authorized`, `App.nameRequired`), registry-option assembly in `NewApp`,
HTTP-secret configuration (`App.configureSecret`), the upload purger
(`uploadPurgeDefaultConfig`, `startUploadPurger`), and the API-version header
added by `App.ServeHTTP`.  Collaborator behaviour that lives outside this file
(the `errcode` and `auth` packages, the storage package's manifest URL check,
Go stdlib regexp/duration parsing) is modelled where needed; each such
definition says so in its doc comment.
-/

namespace Distribution

/-- `auth.Resource`: a type/name pair naming the resource access is sought to. -/
structure Resource where
  type : String
  name : String
deriving DecidableEq, Repr

/-- `auth.Access`: a resource together with the action requested on it. -/
structure Access where
  resource : Resource
  action : String
deriving DecidableEq, Repr

/-- `appendAccessRecords` (app.go): adds the access records implied by the
HTTP `method` on repository `repo` to `records`. -/
def appendAccessRecords (records : List Access) (method : String) (repo : String) :
    List Access :=
  let resource : Resource := ⟨"repository", repo⟩
  if method = "GET" ∨ method = "HEAD" then
    records ++ [⟨resource, "pull"⟩]
  else if method = "POST" ∨ method = "PUT" ∨ method = "PATCH" then
    records ++ [⟨resource, "pull"⟩, ⟨resource, "push"⟩]
  else if method = "DELETE" then
    records ++ [⟨resource, "delete"⟩]
  else
    records

/-- The record-assembly step of `App.authorized` for a request carrying a
repository name: records for the method on `repo`, and, when the form value
`from` is non-empty, records for a GET on the mount source `fromRepo`. -/
def assembleRepoAccessRecords (method repo fromRepo : String) : List Access :=
  let records := appendAccessRecords [] method repo
  if fromRepo ≠ "" then appendAccessRecords records "GET" fromRepo else records

/-- The route names registered in `NewApp` (`v2.RouteName*`). -/
inductive RouteName where
  | base
  | catalog
  | manifest
  | tags
  | blob
  | blobUpload
  | blobUploadChunk
deriving DecidableEq, Repr

/-- `App.nameRequired`: a route requires a repository name unless it is the
base or catalog route; an unmatched route (`none`) requires one. -/
def nameRequired : Option RouteName → Bool
  | none => true
  | some r => !(r == RouteName.base) && !(r == RouteName.catalog)

/-- `appendCatalogAccessRecord` (app.go): adds `{registry:catalog, *}` when the
current route is the catalog route. -/
def appendCatalogAccessRecord (records : List Access) (route : Option RouteName) :
    List Access :=
  if route = some RouteName.catalog then
    records ++ [⟨⟨"registry", "catalog"⟩, "*"⟩]
  else
    records

/-- The OCI JSON error envelope item served with a rejection: an error code,
optionally with the access records attached as detail
(`errcode.ErrorCodeUnauthorized.WithDetail(accessRecords)`). -/
structure ErrorBody where
  code : String
  detail : Option (List Access)
deriving DecidableEq, Repr

/-- The observable part of a response written while authorizing a request:
status code, headers added, and the JSON error body, if any. -/
structure HttpResponse where
  status : Nat
  headers : List (String × String)
  body : Option ErrorBody
deriving DecidableEq, Repr

/-- The response state before the authorization gate writes anything. -/
def emptyHttpResponse : HttpResponse := ⟨200, [], none⟩

/-- Modelled from the spec: `auth.Challenge.SetHeaders` (the `auth` package is
not under src/) — a challenge describes the `WWW-Authenticate` header to emit,
and `SetHeaders` adds it to the response. -/
def challengeSetHeaders (wwwAuthenticate : String) (resp : HttpResponse) :
    HttpResponse :=
  { resp with headers := resp.headers ++ [("WWW-Authenticate", wwwAuthenticate)] }

/-- Modelled from the spec: `errcode.ServeJSON` on the `UNAUTHORIZED` error
code (the `errcode` package is not under src/) — challenges produce `401` with
a JSON error body; the detail carries the access records when
`WithDetail(accessRecords)` was used. -/
def serveJSONUnauthorized (detail : Option (List Access)) (resp : HttpResponse) :
    HttpResponse :=
  { resp with status := 401, body := some ⟨"UNAUTHORIZED", detail⟩ }

/-- Outcome of the pre-callout part of `App.authorized`: either the request is
let through with no controller configured, or it is rejected before any
access-controller callout with the response written, or the access controller
is called with the assembled records. -/
inductive AuthOutcome where
  | allowed
  | rejected (resp : HttpResponse)
  | callController (records : List Access)
deriving DecidableEq, Repr

/-- The pre-callout logic of `App.authorized`: no controller means allowed; a
named repository leads to a controller callout with the method's records (plus
mount-source records); an empty name on a name-requiring route is rejected
with an `UNAUTHORIZED` body; otherwise the catalog records are used. -/
def authorizedGate (hasController : Bool) (method repo fromRepo : String)
    (route : Option RouteName) : AuthOutcome :=
  if hasController = false then
    .allowed
  else if repo ≠ "" then
    .callController (assembleRepoAccessRecords method repo fromRepo)
  else if nameRequired route then
    .rejected (serveJSONUnauthorized none emptyHttpResponse)
  else
    .callController (appendCatalogAccessRecord [] route)

/-- Result of `accessController.Authorized`: a grant, an `auth.Challenge`
error carrying the `WWW-Authenticate` value to emit, or any other error. -/
inductive ControllerResult where
  | grant (user : String) (resources : List Resource)
  | challenge (wwwAuthenticate : String)
  | failure (msg : String)
deriving DecidableEq, Repr

/-- The error-handling branch of `App.authorized` after the controller call:
a challenge sets the `WWW-Authenticate` headers and serves the `UNAUTHORIZED`
JSON body with the access records as detail; any other error writes a bare
`400` status; a grant writes nothing (`none`). -/
def authorizedHandleError (records : List Access) (res : ControllerResult)
    (resp : HttpResponse) : Option HttpResponse :=
  match res with
  | .grant _ _ => none
  | .challenge w => some (serveJSONUnauthorized (some records) (challengeSetHeaders w resp))
  | .failure _ => some { resp with status := 400 }

/-- Header key set by `App.ServeHTTP` on every response. -/
def apiVersionHeaderKey : String := "Docker-Distribution-API-Version"

/-- Header value set by `App.ServeHTTP` on every response. -/
def apiVersionHeaderValue : String := "registry/2.0"

/-- The operations a handler performs on an `http.ResponseWriter`:
`Header().Add`, `Header().Set`, `Header().Del`, `WriteHeader`, `Write`. -/
inductive RespAction where
  | addHeader (k v : String)
  | setHeader (k v : String)
  | delHeader (k : String)
  | writeStatus (code : Nat)
  | write (chunk : String)
deriving DecidableEq, Repr

/-- Response-writer state: accumulated headers, status, body bytes. -/
structure RespState where
  headers : List (String × String)
  status : Nat
  body : String
deriving DecidableEq, Repr

/-- Fresh response-writer state (Go's default status is 200). -/
def RespState.init : RespState := ⟨[], 200, ""⟩

/-- Semantics of one response-writer operation: `Add` appends a header value,
`Set` replaces all values of the key, `Del` removes them. -/
def applyAction (st : RespState) : RespAction → RespState
  | .addHeader k v => { st with headers := st.headers ++ [(k, v)] }
  | .setHeader k v => { st with headers := st.headers.filter (fun kv => !(kv.1 == k)) ++ [(k, v)] }
  | .delHeader k => { st with headers := st.headers.filter (fun kv => !(kv.1 == k)) }
  | .writeStatus c => { st with status := c }
  | .write s => { st with body := st.body ++ s }

/-- Run a handler, given as its sequence of response-writer operations. -/
def runActions (st : RespState) : List RespAction → RespState
  | [] => st
  | a :: rest => runActions (applyAction st a) rest

/-- `App.ServeHTTP`: adds the `Docker-Distribution-API-Version` header, then
hands the response writer to the router/handler. -/
def serveHTTP (handler : List RespAction) : RespState :=
  runActions (applyAction RespState.init (.addHeader apiVersionHeaderKey apiVersionHeaderValue))
    handler

/-- Whether a response-writer operation overwrites or removes the
`Docker-Distribution-API-Version` header. -/
def touchesApiVersion : RespAction → Bool
  | .setHeader k _ => k == apiVersionHeaderKey
  | .delHeader k => k == apiVersionHeaderKey
  | _ => false

/-- The recomputation of `config.Validation.Enabled` in `NewApp`
(`if !config.Validation.Enabled { Enabled = !Disabled }`): the effective
enabled flag after construction. -/
def effectiveValidationEnabled (enabled disabled : Bool) : Bool :=
  if !enabled then !disabled else enabled

/-- The registry options (`storage.RegistryOption` values) `NewApp` can add
while assembling its options list.  Regex options carry the source text of the
regular expression handed to `regexp.MustCompile`. -/
inductive RegistryOption where
  | DisableDigestResumption
  | EnableDelete
  | TagLookupConcurrencyLimit (limit : Nat)
  | EnableRedirect
  | ManifestURLsAllowRegexp (pattern : String)
  | ManifestURLsDenyRegexp (pattern : String)
  | EnableValidateImageIndexImagesExist
  | AddValidateImageIndexImagesExistPlatform (architecture os : String)
deriving DecidableEq, Repr

/-- The configuration fields of `configuration.Configuration` that
`NewApp`'s option assembly and secret configuration read.  `httpSecret` is the
byte sequence of the configured `http.secret` (empty when absent);
`deleteEnabled` models `config.Storage["delete"]["enabled"]` being present and
`true`; `tagConcurrencyLimit` models a present, non-negative
`concurrencylimit`. -/
structure Config where
  proxyRemoteURL : String
  httpSecret : List Nat
  validationEnabled : Bool
  validationDisabled : Bool
  manifestURLsAllow : List String
  manifestURLsDeny : List String
  indexesPlatforms : String
  platformList : List (String × String)
  deleteEnabled : Bool
  tagConcurrencyLimit : Option Nat
  redirectDisabled : Bool
deriving DecidableEq, Repr

/-- `NewApp`'s wrapping of each configured URL regex in a non-capturing group
and joining with `|` before compiling. -/
def joinRegexps (patterns : List String) : String :=
  String.intercalate "|" (patterns.map (fun s => "(?:" ++ s ++ ")"))

/-- The registry-option assembly of `NewApp`, in source order: digest
resumption disabled for a pull-through cache; delete; tag lookup concurrency;
redirect; then, when validation is effectively enabled, the manifest URL
policy (allow-nothing `^$` when both lists are empty) and the image-index
completeness switch. -/
def newAppOptions (c : Config) : List RegistryOption :=
  let options : List RegistryOption := []
  let options := if c.proxyRemoteURL ≠ "" then options ++ [.DisableDigestResumption] else options
  let options := if c.deleteEnabled then options ++ [.EnableDelete] else options
  let options :=
    match c.tagConcurrencyLimit with
    | some limit => options ++ [.TagLookupConcurrencyLimit limit]
    | none => options
  let options := if c.redirectDisabled then options else options ++ [.EnableRedirect]
  if effectiveValidationEnabled c.validationEnabled c.validationDisabled then
    let options :=
      if c.manifestURLsAllow.isEmpty && c.manifestURLsDeny.isEmpty then
        options ++ [.ManifestURLsAllowRegexp "^$"]
      else
        let options :=
          if !c.manifestURLsAllow.isEmpty then
            options ++ [.ManifestURLsAllowRegexp (joinRegexps c.manifestURLsAllow)]
          else options
        if !c.manifestURLsDeny.isEmpty then
          options ++ [.ManifestURLsDenyRegexp (joinRegexps c.manifestURLsDeny)]
        else options
    match c.indexesPlatforms with
    | "list" =>
        options ++ [.EnableValidateImageIndexImagesExist]
          ++ c.platformList.map (fun p => .AddValidateImageIndexImagesExistPlatform p.1 p.2)
    | "none" => options
    | _ => options ++ [.EnableValidateImageIndexImagesExist]
  else options

/-- A small regular-expression syntax: empty, literal character, beginning and
end of text anchors, concatenation, alternation.  It covers the fragment
needed for the patterns analysed here (in particular `^$`). -/
inductive Re where
  | eps
  | lit (c : Char)
  | bol
  | eol
  | seq (a b : Re)
  | alt (a b : Re)
deriving DecidableEq, Repr

/-- End positions reachable by matching `re` in `s` starting at position `i`
(Go regexp semantics without multi-line mode: `^` matches only at the start of
the text, `$` only at the end). -/
def Re.matchEnds : Re → List Char → Nat → List Nat
  | .eps, _, i => [i]
  | .lit c, s, i =>
      if h : i < s.length then (if s.get ⟨i, h⟩ = c then [i + 1] else []) else []
  | .bol, _, i => if i = 0 then [i] else []
  | .eol, s, i => if i = s.length then [i] else []
  | .seq a b, s, i => (a.matchEnds s i).flatMap (b.matchEnds s)
  | .alt a b, s, i => a.matchEnds s i ++ b.matchEnds s i

/-- Unanchored containment match, as Go's `Regexp.MatchString`: the pattern
matches somewhere in the text. -/
def reMatches (re : Re) (cs : List Char) : Bool :=
  (List.range (cs.length + 1)).any fun i => !(re.matchEnds cs i).isEmpty

/-- Compilation of one pattern character.  `^` and `$` are anchors; ordinary
characters are literals; characters outside the modelled fragment do not
compile (`none`). -/
def compileAtom (c : Char) : Option Re :=
  if c = '^' then some .bol
  else if c = '$' then some .eol
  else if c.isAlphanum ∨ c = '/' ∨ c = ':' ∨ c = '-' ∨ c = '_' then some (.lit c)
  else none

/-- Concatenation of a list of regex atoms. -/
def seqAll : List Re → Re
  | [] => .eps
  | a :: rest => .seq a (seqAll rest)

/-- Model of Go `regexp` compilation for the fragment of `Re`: each pattern
character compiles to one atom and the atoms are concatenated. -/
def reCompile (pat : String) : Option Re :=
  (pat.data.mapM compileAtom).map seqAll

/-- Whether compiled pattern `pat` matches somewhere in `s`; a pattern outside
the modelled fragment matches nothing. -/
def reMatchesPattern (pat s : String) : Bool :=
  match reCompile pat with
  | some re => reMatches re s.data
  | none => false

/-- Modelled from the spec: the manifest URL check of the storage package (not
under src/) — "allow is matched first; if non-empty and no match, reject
`manifest_invalid`; deny is then checked and a match rejects". -/
def manifestURLCheck (allowPat denyPat : Option String) (u : String) : Bool :=
  (match allowPat with
   | some p => reMatchesPattern p u
   | none => true)
  && (match denyPat with
      | some p => !(reMatchesPattern p u)
      | none => true)

/-- `randomSecretSize` (app.go): number of random bytes generated when no
secret was configured. -/
def randomSecretSize : Nat := 32

/-- Result of secret configuration: the effective secret bytes and whether the
random-generation warning was logged. -/
structure SecretOutcome where
  secret : List Nat
  warned : Bool
deriving DecidableEq, Repr

/-- `App.configureSecret`: when the configured secret is empty, replace it
with `randomSecretSize` bytes drawn from the random source and log a warning;
otherwise keep it. -/
def configureSecret (cfgSecret : List Nat) (rand : Nat → Nat) : SecretOutcome :=
  if cfgSecret = [] then
    ⟨(List.range randomSecretSize).map rand, true⟩
  else
    ⟨cfgSecret, false⟩

/-- The secret handling of `NewApp`: `configureSecret` is called only when the
registry is not a pull-through cache (`config.Proxy.RemoteURL == ""`). -/
def newAppSecret (c : Config) (rand : Nat → Nat) : SecretOutcome :=
  if c.proxyRemoteURL ≠ "" then ⟨c.httpSecret, false⟩
  else configureSecret c.httpSecret rand

/-- A value in the `map[interface{}]interface{}` purge configuration: the
code only accepts strings (durations) and booleans. -/
inductive ConfigVal where
  | str (s : String)
  | bool (b : Bool)
deriving DecidableEq, Repr

/-- `uploadPurgeDefaultConfig` (app.go): purging enabled, age `168h`, interval
`24h`, dry run off. -/
def uploadPurgeDefaultConfig : List (String × ConfigVal) :=
  [("enabled", .bool true), ("age", .str "168h"), ("interval", .str "24h"),
   ("dryrun", .bool false)]

/-- Go map lookup over the purge configuration. -/
def lookupConfig (cfg : List (String × ConfigVal)) (k : String) : Option ConfigVal :=
  (cfg.find? (fun kv => kv.1 == k)).map (·.2)

/-- Nanoseconds per hour (`time.Hour`). -/
def nanosPerHour : Nat := 3600000000000

/-- Nanoseconds per minute (`time.Minute`). -/
def nanosPerMinute : Nat := 60000000000

/-- Decimal value of a digit sequence; `none` on a non-digit. -/
def digitsVal : List Char → Nat → Option Nat
  | [], acc => some acc
  | c :: rest, acc =>
      if c.isDigit then digitsVal rest (acc * 10 + (c.toNat - 48)) else none

/-- Model of Go `time.ParseDuration` restricted to the whole-hour strings this
configuration uses (`"<digits>h"`, value in nanoseconds); other forms are
outside the modelled fragment (`none`). -/
def parseDurationHours (s : String) : Option Nat :=
  match s.data.reverse with
  | 'h' :: revDigits =>
      match revDigits.reverse with
      | [] => none
      | digits => (digitsVal digits 0).map (· * nanosPerHour)
  | _ => none

/-- The parameters the purger goroutine runs with: age and interval in
nanoseconds and the dry-run flag. -/
structure PurgerParams where
  ageNanos : Nat
  intervalNanos : Nat
  dryRun : Bool
deriving DecidableEq, Repr

/-- Outcome of `startUploadPurger`: return without starting (explicitly
disabled), panic on a malformed configuration, or start the sweeper. -/
inductive PurgerStart where
  | notStarted
  | badConfig
  | started (params : PurgerParams)
deriving DecidableEq, Repr

/-- `startUploadPurger` (app.go), up to launching the goroutine: return when
`config["enabled"] == false`; otherwise require `age`, `interval` (strings
parsing as durations) and `dryrun` (boolean), panicking otherwise. -/
def startUploadPurger (config : List (String × ConfigVal)) : PurgerStart :=
  if lookupConfig config "enabled" = some (.bool false) then .notStarted
  else
    match lookupConfig config "age" with
    | some (.str ageStr) =>
      match parseDurationHours ageStr with
      | some age =>
        match lookupConfig config "interval" with
        | some (.str intervalStr) =>
          match parseDurationHours intervalStr with
          | some intervalNs =>
            match lookupConfig config "dryrun" with
            | some (.bool d) => .started ⟨age, intervalNs, d⟩
            | _ => .badConfig
          | none => .badConfig
        | _ => .badConfig
      | none => .badConfig
    | _ => .badConfig

/-- The purger goroutine's start jitter:
`time.Duration(randInt.Int64()%60) * time.Minute`, in nanoseconds, for a
non-negative random draw `r`. -/
def purgeJitterNanos (r : Nat) : Nat := (r % 60) * nanosPerMinute

/-- Wall-clock time of the n-th purge pass of the goroutine loop (sleep the
jitter, then purge and sleep the interval repeatedly), with purge execution
time abstracted to zero. -/
def purgerIterationTime (jitter intervalNs : Nat) : Nat → Nat
  | 0 => jitter
  | n + 1 => purgerIterationTime jitter intervalNs n + intervalNs

/-- Cut-off passed to `storage.PurgeUploads`: `time.Now().Add(-purgeAge)` —
uploads older than the age at the time of the pass are purged. -/
def purgeCutoff (now ageNanos : Nat) : Int := (now : Int) - (ageNanos : Int)

/-! ## Helper lemmas -/

/-- `appendAccessRecords` only ever appends to the given record list. -/
theorem appendAccessRecords_eq_append (records : List Access) (method repo : String) :
    appendAccessRecords records method repo = records ++ appendAccessRecords [] method repo := by
  unfold appendAccessRecords
  split <;> [skip; split <;> [skip; split]] <;> simp

/-- A header present before a handler runs is still present afterwards,
provided no operation of the handler sets or deletes that key. -/
theorem runActions_preserves_header (kv : String × String) :
    ∀ (acts : List RespAction) (st : RespState),
      kv ∈ st.headers →
      (∀ a ∈ acts, (match a with
        | .setHeader k _ => k ≠ kv.1
        | .delHeader k => k ≠ kv.1
        | _ => True)) →
      kv ∈ (runActions st acts).headers := by
  intro acts
  induction acts with
  | nil => intro st hmem _; simpa [runActions] using hmem
  | cons a rest ih =>
    intro st hmem hok
    have hres : ∀ b ∈ rest, (match b with
        | .setHeader k _ => k ≠ kv.1
        | .delHeader k => k ≠ kv.1
        | _ => True) := fun b hb => hok b (List.mem_cons_of_mem a hb)
    have ha := hok a (List.mem_cons_self a rest)
    rw [runActions]
    refine ih (applyAction st a) ?_ hres
    cases a with
    | addHeader k v => simpa [applyAction] using Or.inl hmem
    | setHeader k v =>
        simp only [applyAction]
        refine List.mem_append_left _ (List.mem_filter.mpr ⟨hmem, ?_⟩)
        simp only at ha
        simpa [beq_eq_false_iff_ne] using fun h => ha h.symm
    | delHeader k =>
        simp only [applyAction]
        refine List.mem_filter.mpr ⟨hmem, ?_⟩
        simp only at ha
        simpa [beq_eq_false_iff_ne] using fun h => ha h.symm
    | writeStatus c => simpa [applyAction] using hmem
    | write s => simpa [applyAction] using hmem

/-- The compiled `^$` pattern matches a string iff the string is empty. -/
theorem reMatches_anchoredEmpty (cs : List Char) :
    reMatches (Re.seq Re.bol (Re.seq Re.eol Re.eps)) cs = cs.isEmpty := by
  cases cs with
  | nil => decide
  | cons c t =>
    simp only [List.isEmpty_cons]
    rw [reMatches]
    simp only [List.any_eq_false, Re.matchEnds]
    intro i _
    by_cases hi : i = 0
    · subst hi
      simp [Re.matchEnds]
    · simp [Re.matchEnds, hi]

/-! ## Claim theorems -/

/-- C1: for a request carrying a repository name, the access records are
determined solely by the HTTP method — GET/HEAD yield exactly the pull record,
POST/PUT/PATCH exactly pull and push, DELETE exactly delete, and any other
method yields no record for the name. -/
theorem accessRecords_determined_by_method (m repo : String) :
    (m = "GET" ∨ m = "HEAD" →
      appendAccessRecords [] m repo = [⟨⟨"repository", repo⟩, "pull"⟩])
  ∧ (m = "POST" ∨ m = "PUT" ∨ m = "PATCH" →
      appendAccessRecords [] m repo =
        [⟨⟨"repository", repo⟩, "pull"⟩, ⟨⟨"repository", repo⟩, "push"⟩])
  ∧ (m = "DELETE" →
      appendAccessRecords [] m repo = [⟨⟨"repository", repo⟩, "delete"⟩])
  ∧ (¬(m = "GET" ∨ m = "HEAD" ∨ m = "POST" ∨ m = "PUT" ∨ m = "PATCH" ∨ m = "DELETE") →
      appendAccessRecords [] m repo = []) := by
  refine ⟨?_, ?_, ?_, ?_⟩
  · rintro (rfl | rfl) <;> simp [appendAccessRecords]
  · rintro (rfl | rfl | rfl) <;> simp [appendAccessRecords]
  · rintro rfl; simp [appendAccessRecords]
  · intro h
    push_neg at h
    obtain ⟨h1, h2, h3, h4, h5, h6⟩ := h
    simp [appendAccessRecords, h1, h2, h3, h4, h5, h6]

/-- Witness for C1 at concrete inputs: an unrecognized method yields no
record, GET yields the pull record. -/
theorem accessRecords_determined_by_method_witness :
    appendAccessRecords [] "OPTIONS" "alice/app" = []
  ∧ appendAccessRecords [] "GET" "alice/app" = [⟨⟨"repository", "alice/app"⟩, "pull"⟩] :=
  ⟨(accessRecords_determined_by_method "OPTIONS" "alice/app").2.2.2 (by decide),
   (accessRecords_determined_by_method "GET" "alice/app").1 (Or.inl rfl)⟩

/-- C2: on a named repository, a non-empty form value `from` adds exactly the
records of a GET on the source repository — a single pull record on `from` —
and the authorization gate calls the controller with these records. -/
theorem crossRepoMount_requires_pull_on_source (m repo f : String)
    (hrepo : repo ≠ "") (hf : f ≠ "") (route : Option RouteName) :
    assembleRepoAccessRecords m repo f
        = assembleRepoAccessRecords m repo "" ++ appendAccessRecords [] "GET" f
  ∧ appendAccessRecords [] "GET" f = [⟨⟨"repository", f⟩, "pull"⟩]
  ∧ Access.mk ⟨"repository", f⟩ "pull" ∈ assembleRepoAccessRecords m repo f
  ∧ authorizedGate true m repo f route
      = .callController (assembleRepoAccessRecords m repo f) := by
  have hget : appendAccessRecords [] "GET" f = [⟨⟨"repository", f⟩, "pull"⟩] := by
    simp [appendAccessRecords]
  have h1 : assembleRepoAccessRecords m repo f
      = assembleRepoAccessRecords m repo "" ++ appendAccessRecords [] "GET" f := by
    simp only [assembleRepoAccessRecords, if_pos hf, ite_not, if_pos rfl]
    exact appendAccessRecords_eq_append _ "GET" f
  refine ⟨h1, hget, ?_, ?_⟩
  · rw [h1, hget]
    simp
  · simp [authorizedGate, hrepo]

/-- Witness for C2: a cross-repository mount POST on `bob/app` with
`from=alice/app`. -/
theorem crossRepoMount_requires_pull_on_source_witness :
    Access.mk ⟨"repository", "alice/app"⟩ "pull"
      ∈ assembleRepoAccessRecords "POST" "bob/app" "alice/app" :=
  (crossRepoMount_requires_pull_on_source "POST" "bob/app" "alice/app"
    (by decide) (by decide) (some RouteName.blobUpload)).2.2.1

/-- C3: a challenge error from the access controller yields a 401 response
with the `WWW-Authenticate` header set and the `UNAUTHORIZED` JSON body
carrying the access records as detail; any other controller error yields a
bare 400 with no body; a grant writes no response here. -/
theorem controller_error_responses (records : List Access) (w msg user : String)
    (resources : List Resource) :
    authorizedHandleError records (.challenge w) emptyHttpResponse
        = some ⟨401, [("WWW-Authenticate", w)], some ⟨"UNAUTHORIZED", some records⟩⟩
  ∧ authorizedHandleError records (.failure msg) emptyHttpResponse
        = some ⟨400, [], none⟩
  ∧ authorizedHandleError records (.grant user resources) emptyHttpResponse = none :=
  ⟨rfl, rfl, rfl⟩

/-- C10: the effective validation flag after `NewApp` is
`enabled || !disabled` — validation is on unless it was explicitly disabled
while not explicitly enabled. -/
theorem validation_enabled_by_default (enabled disabled : Bool) :
    effectiveValidationEnabled enabled disabled = (enabled || !disabled)
  ∧ effectiveValidationEnabled false false = true
  ∧ effectiveValidationEnabled false true = false := by
  refine ⟨?_, rfl, rfl⟩
  cases enabled <;> cases disabled <;> rfl

/-- C5 counterexample: for a pull-through-cache configuration
(`proxy.remoteurl` non-empty) with an empty `http.secret`, construction does
NOT generate a 32-byte secret and does not log the warning — `NewApp` skips
`configureSecret` when the registry is a cache. -/
theorem secret_claim_fails_for_proxy_counterexample :
    ¬ (((newAppSecret
          ⟨"https://registry.example.com", [], true, false, [], [], "all", [],
           false, none, false⟩ (fun _ => 7)).secret).length = randomSecretSize
       ∧ (newAppSecret
          ⟨"https://registry.example.com", [], true, false, [], [], "all", [],
           false, none, false⟩ (fun _ => 7)).warned = true) := by
  decide

/-- C5 (amended): for every configuration that is not a pull-through cache
(`proxy.remoteurl` empty) and whose `http.secret` is empty, construction
stores exactly `randomSecretSize` (32) bytes drawn from the random source as
the HTTP secret and logs the warning. -/
theorem secret_generated_for_nonproxy (c : Config) (rand : Nat → Nat)
    (hproxy : c.proxyRemoteURL = "") (hsecret : c.httpSecret = []) :
    newAppSecret c rand = ⟨(List.range randomSecretSize).map rand, true⟩
  ∧ ((newAppSecret c rand).secret).length = randomSecretSize := by
  have h1 : newAppSecret c rand = ⟨(List.range randomSecretSize).map rand, true⟩ := by
    simp [newAppSecret, hproxy, configureSecret, hsecret]
  exact ⟨h1, by rw [h1]; simp⟩

/-- Witness for the amended C5: a non-proxy configuration with empty secret. -/
theorem secret_generated_for_nonproxy_witness :
    ((newAppSecret ⟨"", [], true, false, [], [], "all", [], false, none, false⟩
        (fun n => n)).secret).length = randomSecretSize :=
  (secret_generated_for_nonproxy
    ⟨"", [], true, false, [], [], "all", [], false, none, false⟩
    (fun n => n) rfl rfl).2

/-- C6: a non-empty `proxy.remoteurl` makes `NewApp` add the
`DisableDigestResumption` storage option. -/
theorem proxy_disables_digest_resumption (c : Config) (h : c.proxyRemoteURL ≠ "") :
    RegistryOption.DisableDigestResumption ∈ newAppOptions c := by
  simp only [newAppOptions, h, ne_eq, not_false_eq_true, if_true, List.nil_append]
  repeat' split
  all_goals simp [List.mem_append]

/-- Witness for C6: a concrete pull-through-cache configuration. -/
theorem proxy_disables_digest_resumption_witness :
    RegistryOption.DisableDigestResumption ∈ newAppOptions
      ⟨"https://registry.example.com", [], true, false, [], [], "all", [],
       false, none, false⟩ :=
  proxy_disables_digest_resumption _ (by decide)

/-- C7: with the default purge configuration the sweeper is started with age
168h and interval 24h; the start jitter is strictly below 60 minutes for
every random draw; the n-th pass happens one interval after the previous one,
the first after the jitter; each pass purges uploads older than the age; and
an explicit `enabled: false` prevents the start. -/
theorem upload_purger_defaults_jitter_schedule :
    startUploadPurger uploadPurgeDefaultConfig
        = .started ⟨168 * nanosPerHour, 24 * nanosPerHour, false⟩
  ∧ (∀ r : Nat, purgeJitterNanos r < 60 * nanosPerMinute)
  ∧ (∀ jitter intervalNs : Nat, purgerIterationTime jitter intervalNs 0 = jitter)
  ∧ (∀ jitter intervalNs n : Nat,
      purgerIterationTime jitter intervalNs (n + 1)
        = purgerIterationTime jitter intervalNs n + intervalNs)
  ∧ (∀ now ageNs : Nat, purgeCutoff now ageNs = (now : Int) - (ageNs : Int))
  ∧ startUploadPurger [("enabled", ConfigVal.bool false)] = .notStarted := by
  refine ⟨by decide, ?_, fun j i => rfl, fun j i n => rfl, fun now a => rfl, by decide⟩
  intro r
  unfold purgeJitterNanos nanosPerMinute
  omega

/-- C4: with validation effectively enabled and both URL lists empty,
`NewApp` installs the allow regexp `^$`; that pattern matches exactly the
empty string, so the manifest URL check rejects every non-empty URL. -/
theorem empty_url_policies_deny_all_urls (c : Config)
    (hval : effectiveValidationEnabled c.validationEnabled c.validationDisabled = true)
    (hallow : c.manifestURLsAllow = []) (hdeny : c.manifestURLsDeny = []) :
    RegistryOption.ManifestURLsAllowRegexp "^$" ∈ newAppOptions c
  ∧ (∀ u : String, reMatchesPattern "^$" u = u.data.isEmpty)
  ∧ (∀ u : String, u ≠ "" → manifestURLCheck (some "^$") none u = false) := by
  have hc : reCompile "^$" = some (Re.seq Re.bol (Re.seq Re.eol Re.eps)) := by decide
  have hmatch : ∀ u : String, reMatchesPattern "^$" u = u.data.isEmpty := by
    intro u
    simp only [reMatchesPattern, hc]
    exact reMatches_anchoredEmpty u.data
  refine ⟨?_, hmatch, ?_⟩
  · simp only [newAppOptions, hval, if_true, hallow, hdeny, List.isEmpty_nil,
      Bool.and_self, List.nil_append]
    repeat' split
    all_goals simp [List.mem_append]
  · intro u hu
    have hdata : u.data ≠ [] := fun hnil => hu (String.ext (hnil.trans rfl))
    simp [manifestURLCheck, hmatch u, List.isEmpty_eq_true, hdata]

/-- Witness for C4: a validation-enabled configuration with empty allow and
deny lists rejects a concrete URL. -/
theorem empty_url_policies_deny_all_urls_witness :
    RegistryOption.ManifestURLsAllowRegexp "^$" ∈ newAppOptions
      ⟨"", [], true, false, [], [], "all", [], false, none, false⟩
  ∧ manifestURLCheck (some "^$") none "https://example.com/layer.tar" = false :=
  ⟨(empty_url_policies_deny_all_urls
      ⟨"", [], true, false, [], [], "all", [], false, none, false⟩ rfl rfl rfl).1,
   (empty_url_policies_deny_all_urls
      ⟨"", [], true, false, [], [], "all", [], false, none, false⟩ rfl rfl rfl).2.2
      "https://example.com/layer.tar" (by decide)⟩

/-- C8: `ServeHTTP` adds `Docker-Distribution-API-Version: registry/2.0`
before dispatch, so it is present on the response of every handler whose
response-writer operations do not overwrite or delete that header (no handler
in the application does). -/
theorem api_version_header_on_every_response (handler : List RespAction)
    (h : ∀ a ∈ handler, touchesApiVersion a = false) :
    (apiVersionHeaderKey, apiVersionHeaderValue) ∈ (serveHTTP handler).headers := by
  unfold serveHTTP
  refine runActions_preserves_header _ handler _ ?_ ?_
  · simp [applyAction, RespState.init]
  · intro a ha
    have hfa := h a ha
    cases a <;> simp_all [touchesApiVersion]

/-- Witness for C8: the handler of the base route (`apiBase`), which sets the
content headers and writes the empty JSON object. -/
theorem api_version_header_on_every_response_witness :
    (apiVersionHeaderKey, apiVersionHeaderValue) ∈ (serveHTTP
      [RespAction.setHeader "Content-Type" "application/json",
       RespAction.setHeader "Content-Length" "2",
       RespAction.write "\x7b\x7d"]).headers :=
  api_version_header_on_every_response _ (by decide)

/-- C9: with an access controller configured, a request with an empty name on
a name-requiring route is rejected with an `UNAUTHORIZED` body before any
controller callout; a route is exempt from requiring a name exactly when it
is the base or catalog route. -/
theorem empty_name_rejected_before_callout (m f : String) (route : Option RouteName) :
    (nameRequired route = true →
      authorizedGate true m "" f route
        = .rejected ⟨401, [], some ⟨"UNAUTHORIZED", none⟩⟩)
  ∧ (∀ r : RouteName,
      nameRequired (some r) = false ↔ (r = RouteName.base ∨ r = RouteName.catalog))
  ∧ nameRequired none = true := by
  refine ⟨?_, fun r => by cases r <;> decide, rfl⟩
  intro h
  simp [authorizedGate, h, serveJSONUnauthorized, emptyHttpResponse]

/-- Witness for C9: a GET on the tags route with no repository name. -/
theorem empty_name_rejected_before_callout_witness :
    authorizedGate true "GET" "" "" (some RouteName.tags)
      = .rejected ⟨401, [], some ⟨"UNAUTHORIZED", none⟩⟩ :=
  (empty_name_rejected_before_callout "GET" "" (some RouteName.tags)).1 (by decide)

end Distribution
